import Mathlib

/-!
Verification of the AnalogShield host-side driver (`AnalogShield.py`).

The Python source is shallowly embedded: voltages and other real-valued
quantities are modelled as exact rationals (`ℚ`), Python integers as `ℤ`/`ℕ`,
Python lists as Lean lists, and fallible operations return `Except`/`Option`.
-/

namespace AnalogShield

/-- Errors a modelled operation can raise.  `valueError` models Python's
`ValueError` (the code's channel/range rejections); `indexError` models an
out-of-bounds list subscript. -/
inductive PyErr where
  | valueError
  | indexError
deriving DecidableEq, Repr

/-- Python `int()` applied to a rational: truncation toward zero. -/
def pyInt (q : ℚ) : ℤ :=
  if 0 ≤ q then ⌊q⌋ else ⌈q⌉

/-- Embedding of `AnalogShield.volts_to_bits`: `int((13107*volts + 65535)/2)`. -/
def volts_to_bits (volts : ℚ) : ℤ :=
  pyInt ((13107 * volts + 65535) / 2)

/-- Embedding of `AnalogShield.bits_to_volts`: `2*bits/13107 - 5`. -/
def bits_to_volts (bits : ℤ) : ℚ :=
  2 * (bits : ℚ) / 13107 - 5

/-- Embedding of `AnalogShield.encode_num`: `[n >> 8, n & 0x00ff]`. -/
def encode_num (n : ℕ) : List ℕ :=
  [n >>> 8, n &&& 0xff]

/-- The byte list built at the top of `AnalogShield.write`:
`bytearray([ord(char) for char in identifier])` extended with
`encode_num(arg)`. -/
def commandBytes (identifier : String) (arg : ℕ) : List ℕ :=
  identifier.toList.map Char.toNat ++ encode_num arg

/-- ASCII semicolon, the response terminator checked by `AnalogShield.write`. -/
def terminator : ℕ := 0x3b

/-- The receive loop of `AnalogShield.write`, parametrised by the schedule of
chunks the non-blocking serial reads return.  `buf` is the bytes accumulated so
far (the first read's result); each loop iteration appends the next chunk and
breaks when the buffer's final byte is the terminator.  Once the schedule is
exhausted every further read returns zero bytes, so the loop either breaks on
the already-accumulated buffer or spins forever — the latter is `none`. -/
def recvLoop : List ℕ → List (List ℕ) → Option (List ℕ)
  | buf, [] => if buf.getLast? = some terminator then some buf else none
  | buf, c :: rest =>
      let buf2 := buf ++ c
      if buf2.getLast? = some terminator then some buf2 else recvLoop buf2 rest

/-- The read phase of `AnalogShield.write`: `response = self.device.read()`
(the first chunk, consumed without a terminator check) followed by the
`while True` loop over the remaining chunks. -/
def writeRecv : List (List ℕ) → Option (List ℕ)
  | [] => recvLoop [] []
  | c :: rest => recvLoop c rest

/-- Embedding of `AnalogShield.write`: sends `commandBytes identifier arg`
and, given the chunk schedule of the transport, returns the response with the
trailing semicolon stripped (`response[:-1]`); `none` means the loop blocks
forever.  The latin-1 decode is byte-for-byte, so bytes stand for the text. -/
def write (identifier : String) (arg : ℕ) (chunks : List (List ℕ)) :
    List ℕ × Option (List ℕ) :=
  (commandBytes identifier arg, (writeRecv chunks).map List.dropLast)

/-- Unfolding equation for `recvLoop` on an exhausted schedule. -/
theorem recvLoop_nil (buf : List ℕ) :
    recvLoop buf [] = if buf.getLast? = some terminator then some buf else none := rfl

/-- Unfolding equation for one iteration of `recvLoop`. -/
theorem recvLoop_cons (buf c : List ℕ) (rest : List (List ℕ)) :
    recvLoop buf (c :: rest)
      = if (buf ++ c).getLast? = some terminator then some (buf ++ c)
        else recvLoop (buf ++ c) rest := rfl

/-- If the bytes still to come end in the terminator and contain the terminator
nowhere else, the receive loop consumes the whole schedule and returns the full
buffer. -/
theorem recvLoop_clean :
    ∀ (chunks : List (List ℕ)) (buf : List ℕ),
      (buf ++ chunks.flatten).getLast? = some terminator →
      terminator ∉ (buf ++ chunks.flatten).dropLast →
      recvLoop buf chunks = some (buf ++ chunks.flatten) := by
  intro chunks
  induction chunks with
  | nil =>
    intro buf h1 _
    rw [List.flatten_nil, List.append_nil] at h1 ⊢
    rw [recvLoop_nil, if_pos h1]
  | cons c rest ih =>
    intro buf h1 h2
    rw [List.flatten_cons, ← List.append_assoc] at h1 h2 ⊢
    rw [recvLoop_cons]
    by_cases hc : (buf ++ c).getLast? = some terminator
    · have hrest : rest.flatten = [] := by
        by_contra hne
        apply h2
        rw [List.dropLast_append_of_ne_nil _ hne]
        exact List.mem_append_left _ (List.mem_of_getLast?_eq_some hc)
      rw [if_pos hc, hrest, List.append_nil]
    · rw [if_neg hc]
      exact ih (buf ++ c) h1 h2

/-- If the terminator never arrives, the receive loop never breaks: the model
returns `none`, i.e. the call blocks forever. -/
theorem recvLoop_no_terminator :
    ∀ (chunks : List (List ℕ)) (buf : List ℕ),
      terminator ∉ buf ++ chunks.flatten → recvLoop buf chunks = none := by
  intro chunks
  induction chunks with
  | nil =>
    intro buf h
    rw [List.flatten_nil, List.append_nil] at h
    rw [recvLoop_nil, if_neg]
    intro hc
    exact h (List.mem_of_getLast?_eq_some hc)
  | cons c rest ih =>
    intro buf h
    rw [List.flatten_cons, ← List.append_assoc] at h
    rw [recvLoop_cons, if_neg]
    · exact ih (buf ++ c) h
    · intro hc
      exact h (List.mem_append_left _ (List.mem_of_getLast?_eq_some hc))

/-- Whenever the receive loop returns a buffer, that buffer ends in the
terminator byte. -/
theorem recvLoop_some_ends_terminator :
    ∀ (chunks : List (List ℕ)) (buf res : List ℕ),
      recvLoop buf chunks = some res → res.getLast? = some terminator := by
  intro chunks
  induction chunks with
  | nil =>
    intro buf res h
    rw [recvLoop_nil] at h
    by_cases hc : buf.getLast? = some terminator
    · rw [if_pos hc] at h
      cases h
      exact hc
    · rw [if_neg hc] at h
      cases h
  | cons c rest ih =>
    intro buf res h
    rw [recvLoop_cons] at h
    by_cases hc : (buf ++ c).getLast? = some terminator
    · rw [if_pos hc] at h
      cases h
      exact hc
    · rw [if_neg hc] at h
      exact ih (buf ++ c) res h

/-- C2: for a response payload delivered one byte at a time (with zero-byte
reads interleaved) and ending in the terminator `0x3B`, `write` returns
exactly the payload with the single trailing terminator stripped, independent
of the chunking; and while no terminator has been delivered it never returns
at all (the loop blocks). -/
theorem write_reassembles_chunked_response :
    (∀ (identifier : String) (arg : ℕ) (p : List ℕ) (chunks : List (List ℕ)),
        terminator ∉ p →
        (∀ c ∈ chunks, c.length ≤ 1) →
        chunks.flatten = p ++ [terminator] →
        (write identifier arg chunks).2 = some p) ∧
    (∀ (identifier : String) (arg : ℕ) (chunks : List (List ℕ)),
        terminator ∉ chunks.flatten →
        (write identifier arg chunks).2 = none) := by
  constructor
  · intro identifier arg p chunks hp _ hflat
    cases chunks with
    | nil => exact absurd hflat (by simp)
    | cons c rest =>
      have hfull : c ++ rest.flatten = p ++ [terminator] := by
        rw [← List.flatten_cons]
        exact hflat
      have h1 : (c ++ rest.flatten).getLast? = some terminator := by
        rw [hfull]
        exact List.getLast?_concat _
      have h2 : terminator ∉ (c ++ rest.flatten).dropLast := by
        rw [hfull, List.dropLast_concat]
        exact hp
      show ((writeRecv (c :: rest)).map List.dropLast) = some p
      rw [show writeRecv (c :: rest) = recvLoop c rest from rfl,
        recvLoop_clean rest c h1 h2, Option.map_some', hfull, List.dropLast_concat]
  · intro identifier arg chunks h
    cases chunks with
    | nil => rfl
    | cons c rest =>
      show ((writeRecv (c :: rest)).map List.dropLast) = none
      rw [show writeRecv (c :: rest) = recvLoop c rest from rfl,
        recvLoop_no_terminator rest c (by rw [← List.flatten_cons]; exact h)]
      rfl

/-- Witness for `write_reassembles_chunked_response`: payload `[65, 66]`
delivered as single bytes with a zero-byte read interleaved, and a
terminator-free delivery that blocks. -/
theorem write_reassembles_chunked_response_witness :
    (write "A0" 1 [[65], [], [66], [terminator]]).2 = some [65, 66] ∧
    (write "A0" 1 [[65], [66]]).2 = none :=
  ⟨write_reassembles_chunked_response.1 "A0" 1 [65, 66] [[65], [], [66], [terminator]]
      (by decide) (by decide) (by decide),
   write_reassembles_chunked_response.2 "A0" 1 [[65], [66]] (by decide)⟩

/-- C9: the receive loop of `write` exits only when, immediately after a read,
the final byte of the accumulated buffer equals the terminator; a read whose
chunk contains the terminator followed by further bytes does not end the loop —
the loop simply continues with the extended buffer. -/
theorem recv_loop_exit_condition :
    (∀ (chunks : List (List ℕ)) (buf : List ℕ),
        writeRecv chunks = some buf → buf.getLast? = some terminator) ∧
    (∀ (buf c : List ℕ) (rest : List (List ℕ)),
        terminator ∈ c → (buf ++ c).getLast? ≠ some terminator →
        recvLoop buf (c :: rest) = recvLoop (buf ++ c) rest) := by
  constructor
  · intro chunks buf h
    cases chunks with
    | nil => exact recvLoop_some_ends_terminator [] [] buf h
    | cons c rest => exact recvLoop_some_ends_terminator rest c buf h
  · intro buf c rest _ hne
    rw [recvLoop_cons, if_neg hne]

/-- Witness for `recv_loop_exit_condition`: a completed read ends in the
terminator, and a chunk `[0x3B, 65]` carrying the terminator mid-buffer does
not break the loop. -/
theorem recv_loop_exit_condition_witness :
    List.getLast? [65, terminator] = some terminator ∧
    recvLoop [] [[terminator, 65], [terminator]]
      = recvLoop [terminator, 65] [[terminator]] :=
  ⟨recv_loop_exit_condition.1 [[65, terminator]] [65, terminator] (by decide),
   recv_loop_exit_condition.2 [] [terminator, 65] [[terminator]] (by decide) (by decide)⟩

/-- A device command as issued by `AnalogShield.write`: the two-character
identifier and the numeric argument passed to it. -/
abbrev Cmd := String × ℚ

/-- Embedding of the `self.ramp` dictionary: per-channel write-through cache of
the waveform generator configuration (four entries per key). -/
structure RampState where
  running : List Bool
  period : List ℚ
  amplitude : List ℚ
  offset : List ℚ
  phase : List ℚ
  function : List String
deriving DecidableEq, Repr

/-- The default `self.ramp` contents set up in `__init__`. -/
def rampState0 : RampState :=
  { running := [false, false, false, false]
    period := [100, 100, 100, 100]
    amplitude := [5, 5, 5, 5]
    offset := [0, 0, 0, 0]
    phase := [0, 0, 0, 0]
    function := ["triangle", "triangle", "triangle", "triangle"] }

/-- The commands a ramp-setter call issued, whether it returned normally or
raised: on a raise the Python code has not reached any `self.write` call, so
no command was issued. -/
def cmdsOf (r : Except PyErr (RampState × List Cmd)) : List Cmd :=
  match r with
  | .ok (_, cs) => cs
  | .error _ => []

/-- The `{"triangle": 0, "sin": 1, "square": 2}` lookup in `ramp_function`
(only reached once membership has been checked). -/
def func_num (f : String) : ℚ :=
  if f = "triangle" then 0 else if f = "sin" then 1 else 2

/-- Embedding of `AnalogShield.ramp_period` for a single channel with an
argument supplied (the no-argument getter branch, which returns the cached
value without device I/O, and the "all" fan-out are not exercised by the
claims).  `time > 0` updates the cache and issues `rc` then `rp`; otherwise
the code raises `ValueError`. -/
def ramp_period (s : RampState) (c : Fin 4) (time : ℚ) :
    Except PyErr (RampState × List Cmd) :=
  if 0 < time then
    .ok ({ s with period := s.period.set c.val time },
      [("rc", (c.val : ℚ)), ("rp", time)])
  else .error .valueError

/-- Embedding of `AnalogShield.ramp_amplitude` (single channel, argument
supplied): `0 <= amp <= 5` updates the cache and issues `rc` then `ra` with
`volts_to_bits amp`; otherwise the code raises `ValueError`. -/
def ramp_amplitude (s : RampState) (c : Fin 4) (amp : ℚ) :
    Except PyErr (RampState × List Cmd) :=
  if 0 ≤ amp ∧ amp ≤ 5 then
    .ok ({ s with amplitude := s.amplitude.set c.val amp },
      [("rc", (c.val : ℚ)), ("ra", (volts_to_bits amp : ℚ))])
  else .error .valueError

/-- Embedding of `AnalogShield.ramp_offset` (single channel, argument
supplied): `-5 <= offset <= 5` updates the cache and issues `rc` then `ro`;
otherwise the function has no `else` branch and silently returns `None`,
issuing nothing and raising nothing. -/
def ramp_offset (s : RampState) (c : Fin 4) (offset : ℚ) :
    Except PyErr (RampState × List Cmd) :=
  if -5 ≤ offset ∧ offset ≤ 5 then
    .ok ({ s with offset := s.offset.set c.val offset },
      [("rc", (c.val : ℚ)), ("ro", (volts_to_bits offset : ℚ))])
  else .ok (s, [])

/-- Embedding of `AnalogShield.ramp_phase` (single channel, argument
supplied): `0 <= phase <= 100` updates the cache and issues `rc` then `rs`
with `int(phase * 65535/100)`; otherwise, like `ramp_offset`, the code
silently returns `None`. -/
def ramp_phase (s : RampState) (c : Fin 4) (phase : ℚ) :
    Except PyErr (RampState × List Cmd) :=
  if 0 ≤ phase ∧ phase ≤ 100 then
    .ok ({ s with phase := s.phase.set c.val phase },
      [("rc", (c.val : ℚ)), ("rs", (pyInt (phase * 65535 / 100) : ℚ))])
  else .ok (s, [])

/-- Embedding of `AnalogShield.ramp_function` (single channel, argument
supplied): a valid function name updates the cache and issues `rc` then `rf`;
otherwise the code raises `ValueError`. -/
def ramp_function (s : RampState) (c : Fin 4) (f : String) :
    Except PyErr (RampState × List Cmd) :=
  if f ∈ (["triangle", "sin", "square"] : List String) then
    .ok ({ s with function := s.function.set c.val f },
      [("rc", (c.val : ℚ)), ("rf", func_num f)])
  else .error .valueError

/-- C4 as the code actually behaves: `ramp_amplitude(0, 6)` raises
(`ValueError`, the code's `OutOfRange`) and `ramp_amplitude(0, 5)` succeeds,
but `ramp_offset(0, -6)` does not fail — the missing `else` branch makes the
call a silent no-op: no error, no cache update, no device command.  This
evaluates the embedding at the claim's inputs. -/
theorem ramp_range_rejection_eval :
    ramp_offset rampState0 0 (-6) = .ok (rampState0, []) ∧
    ramp_amplitude rampState0 0 6 = .error .valueError ∧
    ramp_amplitude rampState0 0 5
      = .ok ({ rampState0 with amplitude := [5, 5, 5, 5] },
          [("rc", 0), ("ra", 65535)]) := by
  refine ⟨?_, ?_, ?_⟩
  · rw [ramp_offset, if_neg (by norm_num)]
  · rw [ramp_amplitude, if_neg (by norm_num)]
  · rw [ramp_amplitude, if_pos (by norm_num)]
    have h5 : volts_to_bits 5 = 65535 := by
      unfold volts_to_bits pyInt
      rw [if_pos (by norm_num)]
      norm_num
    rw [h5]
    norm_num [rampState0]

/-- C8: a ramp-setter call whose argument is outside the documented range
issues no device command at all, and every command list a single-channel
setter can issue is either empty or the channel-select `rc` immediately
followed by the parameter-specific command — `rc` is never sent alone. -/
theorem rejected_setter_issues_no_command (s : RampState) (c : Fin 4) :
    (∀ t : ℚ, t ≤ 0 → cmdsOf (ramp_period s c t) = []) ∧
    (∀ a : ℚ, a < 0 ∨ 5 < a → cmdsOf (ramp_amplitude s c a) = []) ∧
    (∀ o : ℚ, o < -5 ∨ 5 < o → cmdsOf (ramp_offset s c o) = []) ∧
    (∀ p : ℚ, p < 0 ∨ 100 < p → cmdsOf (ramp_phase s c p) = []) ∧
    (∀ f : String, f ∉ (["triangle", "sin", "square"] : List String) →
      cmdsOf (ramp_function s c f) = []) ∧
    (∀ t : ℚ, cmdsOf (ramp_period s c t) = [] ∨
      cmdsOf (ramp_period s c t) = [("rc", (c.val : ℚ)), ("rp", t)]) ∧
    (∀ a : ℚ, cmdsOf (ramp_amplitude s c a) = [] ∨
      cmdsOf (ramp_amplitude s c a)
        = [("rc", (c.val : ℚ)), ("ra", (volts_to_bits a : ℚ))]) ∧
    (∀ o : ℚ, cmdsOf (ramp_offset s c o) = [] ∨
      cmdsOf (ramp_offset s c o)
        = [("rc", (c.val : ℚ)), ("ro", (volts_to_bits o : ℚ))]) ∧
    (∀ p : ℚ, cmdsOf (ramp_phase s c p) = [] ∨
      cmdsOf (ramp_phase s c p)
        = [("rc", (c.val : ℚ)), ("rs", (pyInt (p * 65535 / 100) : ℚ))]) ∧
    (∀ f : String, cmdsOf (ramp_function s c f) = [] ∨
      cmdsOf (ramp_function s c f) = [("rc", (c.val : ℚ)), ("rf", func_num f)]) := by
  refine ⟨?_, ?_, ?_, ?_, ?_, ?_, ?_, ?_, ?_, ?_⟩
  · intro t ht
    rw [ramp_period, if_neg (by linarith)]
    rfl
  · intro a ha
    rw [ramp_amplitude, if_neg (by rcases ha with h | h <;> intro hc <;> linarith [hc.1, hc.2])]
    rfl
  · intro o ho
    rw [ramp_offset, if_neg (by rcases ho with h | h <;> intro hc <;> linarith [hc.1, hc.2])]
    rfl
  · intro p hp
    rw [ramp_phase, if_neg (by rcases hp with h | h <;> intro hc <;> linarith [hc.1, hc.2])]
    rfl
  · intro f hf
    rw [ramp_function, if_neg hf]
    rfl
  · intro t
    rw [ramp_period]
    by_cases h : 0 < t
    · rw [if_pos h]
      exact Or.inr rfl
    · rw [if_neg h]
      exact Or.inl rfl
  · intro a
    rw [ramp_amplitude]
    by_cases h : 0 ≤ a ∧ a ≤ 5
    · rw [if_pos h]
      exact Or.inr rfl
    · rw [if_neg h]
      exact Or.inl rfl
  · intro o
    rw [ramp_offset]
    by_cases h : -5 ≤ o ∧ o ≤ 5
    · rw [if_pos h]
      exact Or.inr rfl
    · rw [if_neg h]
      exact Or.inl rfl
  · intro p
    rw [ramp_phase]
    by_cases h : 0 ≤ p ∧ p ≤ 100
    · rw [if_pos h]
      exact Or.inr rfl
    · rw [if_neg h]
      exact Or.inl rfl
  · intro f
    rw [ramp_function]
    by_cases h : f ∈ (["triangle", "sin", "square"] : List String)
    · rw [if_pos h]
      exact Or.inr rfl
    · rw [if_neg h]
      exact Or.inl rfl

/-- Witness for `rejected_setter_issues_no_command`: rejected period `0` and
amplitude `6` on channel 0 issue no commands. -/
theorem rejected_setter_issues_no_command_witness :
    cmdsOf (ramp_period rampState0 0 0) = [] ∧
    cmdsOf (ramp_amplitude rampState0 0 6) = [] :=
  ⟨(rejected_setter_issues_no_command rampState0 0).1 0 (by norm_num),
   (rejected_setter_issues_no_command rampState0 0).2.1 6 (Or.inr (by norm_num))⟩

/-- A channel argument as the Python code receives it: an integer, or the
string `"all"` (case-insensitively). -/
inductive Chan where
  | num (n : ℤ)
  | all
deriving DecidableEq, Repr

/-- Python list subscript `l[n]`: nonnegative indices are direct, negative
indices count from the end, and anything outside `[-len, len)` raises
`IndexError` (modelled as `none`). -/
def pyGet {α : Type} (l : List α) (n : ℤ) : Option α :=
  if 0 ≤ n then l[n.toNat]?
  else if 0 ≤ n + (l.length : ℤ) then l[(n + (l.length : ℤ)).toNat]?
  else none

/-- Evaluation of an `np.poly1d` degree-1 correction polynomial
`(slope, intercept)`. -/
def polyval (p : ℚ × ℚ) (x : ℚ) : ℚ := p.1 * x + p.2

/-- The clamp in `analog_write`: `val = max(-5, val); val = min(5, val)`. -/
def clamp5 (v : ℚ) : ℚ := min 5 (max (-5) v)

/-- The per-direction correction tables of a session:
`self.adc_correct` and `self.dac_correct`, four optional degree-1
polynomials each. -/
structure DevState where
  adc_correct : List (Option (ℚ × ℚ))
  dac_correct : List (Option (ℚ × ℚ))
deriving DecidableEq, Repr

/-- A freshly constructed session with no calibration loaded: both tables are
`[None] * 4`. -/
def devState0 : DevState :=
  { adc_correct := [none, none, none, none]
    dac_correct := [none, none, none, none] }

/-- Embedding of `AnalogShield.analog_write`.  The result is the command
issued, `none` standing for the fall-through return of `None` when an integer
channel is outside `0..3` (the code has no `else` branch there).  With
correction requested and an integer channel, the code first subscripts
`self.dac_correct[channel]` — Python semantics, so negative channels down to
`-4` alias entries from the end and anything further out raises `IndexError`;
an uncalibrated entry only warns (non-fatal) and passes the value through. -/
def analog_write (s : DevState) (channel : Chan) (val : ℚ) (correct : Bool) :
    Except PyErr (Option Cmd) :=
  match channel with
  | .all => .ok (some ("va", (volts_to_bits val : ℚ)))
  | .num n =>
    if correct then
      match pyGet s.dac_correct n with
      | none => .error .indexError
      | some entry =>
        let val2 := match entry with
          | some p => clamp5 (polyval p val)
          | none => val
        if 0 ≤ n ∧ n ≤ 3 then
          .ok (some ("v" ++ toString n, (volts_to_bits val2 : ℚ)))
        else .ok none
    else
      if 0 ≤ n ∧ n ≤ 3 then
        .ok (some ("v" ++ toString n, (volts_to_bits val : ℚ)))
      else .ok none

/-- The value of one hexadecimal digit, both cases accepted. -/
def hexDigitVal (c : Char) : Option ℕ :=
  if '0' ≤ c ∧ c ≤ '9' then some (c.toNat - 48)
  else if 'a' ≤ c ∧ c ≤ 'f' then some (c.toNat - 87)
  else if 'A' ≤ c ∧ c ≤ 'F' then some (c.toNat - 55)
  else none

/-- Python `int(x, 16)` restricted to plain hexadecimal digit strings, which
is all the device protocol produces; the empty string (and any non-hex
character) raises `ValueError`, modelled as `none`. -/
def parseHex (cs : List Char) : Option ℕ :=
  match cs with
  | [] => none
  | _ =>
    cs.foldl (fun acc c => acc.bind fun a => (hexDigitVal c).map fun d => 16 * a + d)
      (some 0)

/-- Python `str.split(",")`: split on every comma, keeping empty fields, with
`[""]` for the empty string. -/
def splitOnComma : List Char → List (List Char)
  | [] => [[]]
  | c :: rest =>
    if c = ',' then [] :: splitOnComma rest
    else
      match splitOnComma rest with
      | [] => [[c]]
      | g :: gs => (c :: g) :: gs

/-- Embedding of `AnalogShield.analog_read`, with the terminator-stripped
response payload the transport produced passed as `resp`.  The channel guard
`0 <= channel <= 3` comes first — its `else` raises `ValueError` — then the
command `A{channel}` (with the sample count as argument) is issued, the
comma-separated hex fields are decoded to bit values and volts, and the ADC
correction is applied if requested (an uncalibrated channel only warns). -/
def analog_read (s : DevState) (channel : ℤ) (samples : ℕ) (correct : Bool)
    (resp : String) : Except PyErr (Cmd × List ℚ) :=
  if 0 ≤ channel ∧ channel ≤ 3 then
    match (splitOnComma resp.toList).mapM parseHex with
    | none => .error .valueError
    | some bitVals =>
      let voltages := bitVals.map fun b => bits_to_volts (b : ℤ)
      let corrected :=
        if correct then
          match s.adc_correct.getD channel.toNat none with
          | some p => voltages.map (polyval p)
          | none => voltages
        else voltages
      .ok (("A" ++ toString channel, (samples : ℚ)), corrected)
  else .error .valueError

/-- C3 counterexample: the claim says `analog_write` fails with
`InvalidChannel` for every channel outside `{0,1,2,3,"all"}`, but
`analog_write(-1, 0)` raises nothing at all: Python's negative indexing makes
the correction lookup hit `dac_correct[3]`, and the channel dispatch then
falls through, returning `None` without issuing any command. -/
theorem analog_write_invalid_channel_silent :
    analog_write devState0 (Chan.num (-1)) 0 true = .ok none := rfl

/-- C3 (amended): `analog_read` rejects every channel outside `{0,1,2,3}` with
`ValueError` (the code's `InvalidChannel`), but `analog_write` has no channel
validation: with correction enabled, integer channels beyond `3` or below `-4`
fail only with an incidental `IndexError` from the `dac_correct` subscript,
channels `-4..-1` and any out-of-range channel with correction disabled
silently return `None` with no command issued, and `analog_write(0, 0)` and
`analog_read(0)` succeed given a stub response. -/
theorem channel_validation_behavior :
    (∀ (s : DevState) (n : ℤ) (v : ℚ), s.dac_correct.length = 4 →
        4 ≤ n ∨ n < -4 → analog_write s (.num n) v true = .error .indexError) ∧
    (∀ (s : DevState) (n : ℤ) (v : ℚ), s.dac_correct.length = 4 →
        -4 ≤ n → n < 0 → analog_write s (.num n) v true = .ok none) ∧
    (∀ (s : DevState) (n : ℤ) (v : ℚ), n < 0 ∨ 3 < n →
        analog_write s (.num n) v false = .ok none) ∧
    (∀ (s : DevState) (n : ℤ) (samples : ℕ) (b : Bool) (resp : String),
        n < 0 ∨ 3 < n → analog_read s n samples b resp = .error .valueError) ∧
    analog_write devState0 (.num 0) 0 true = .ok (some ("v0", 32767)) ∧
    analog_read devState0 0 1 true "7fff" = .ok (("A0", 1), [-1 / 13107]) := by
  have hlen' : ∀ (s : DevState), s.dac_correct.length = 4 →
      ((s.dac_correct.length : ℤ)) = 4 := fun s h => by rw [h]; rfl
  refine ⟨?_, ?_, ?_, ?_, ?_, ?_⟩
  · intro s n v hlen h
    have hg : pyGet s.dac_correct n = none := by
      unfold pyGet
      rcases h with h4 | h4
      · rw [if_pos (by omega)]
        apply List.getElem?_eq_none
        omega
      · rw [if_neg (by omega), if_neg (by rw [hlen' s hlen]; omega)]
    simp [analog_write, hg]
  · intro s n v hlen h1 h2
    obtain ⟨e, hg⟩ : ∃ e, pyGet s.dac_correct n = some e := by
      unfold pyGet
      rw [if_neg (by omega), if_pos (by rw [hlen' s hlen]; omega)]
      have hlt : (n + (s.dac_correct.length : ℤ)).toNat < s.dac_correct.length := by
        rw [hlen' s hlen]
        omega
      exact ⟨_, List.getElem?_eq_getElem hlt⟩
    have hcond : ¬(0 ≤ n ∧ n ≤ 3) := by omega
    simp only [analog_write, hg]
    rw [if_neg hcond]
    simp
  · intro s n v h
    have hcond : ¬(0 ≤ n ∧ n ≤ 3) := by omega
    simp only [analog_write, Bool.false_eq_true, if_false]
    rw [if_neg hcond]
  · intro s n samples b resp h
    have hcond : ¬(0 ≤ n ∧ n ≤ 3) := by omega
    unfold analog_read
    rw [if_neg hcond]
  · have hg : pyGet devState0.dac_correct 0 = some none := rfl
    have h0 : volts_to_bits 0 = 32767 := by
      unfold volts_to_bits pyInt
      rw [if_pos (by norm_num)]
      norm_num
    have hcond : (0 : ℤ) ≤ 0 ∧ (0 : ℤ) ≤ 3 := by omega
    simp only [analog_write, hg, h0]
    rw [if_pos hcond]
    rfl
  · have hm : (splitOnComma ("7fff".toList)).mapM parseHex = some [32767] := rfl
    have hb : bits_to_volts ((32767 : ℕ) : ℤ) = -1 / 13107 := by
      unfold bits_to_volts
      norm_num
    have hcond : (0 : ℤ) ≤ 0 ∧ (0 : ℤ) ≤ 3 := by omega
    have hga : devState0.adc_correct.getD (Int.toNat 0) none = none := rfl
    unfold analog_read
    rw [if_pos hcond]
    simp only [hm, List.map, hga, if_pos trivial, hb]
    rfl

/-- Witness for `channel_validation_behavior`: channel 4 with correction
raises `IndexError`, channel `-2` with correction and channel 4 without
correction silently return `None`, and `analog_read(-1)` raises
`ValueError`. -/
theorem channel_validation_behavior_witness :
    analog_write devState0 (Chan.num 4) 0 true = .error .indexError ∧
    analog_write devState0 (Chan.num (-2)) 0 true = .ok none ∧
    analog_write devState0 (Chan.num 4) 0 false = .ok none ∧
    analog_read devState0 (-1) 1 true "7fff" = .error .valueError :=
  ⟨channel_validation_behavior.1 devState0 4 0 rfl (Or.inl (by norm_num)),
   channel_validation_behavior.2.1 devState0 (-2) 0 rfl (by norm_num) (by norm_num),
   channel_validation_behavior.2.2.1 devState0 4 0 (Or.inr (by norm_num)),
   channel_validation_behavior.2.2.2.1 devState0 (-1) 1 true "7fff" (Or.inl (by norm_num))⟩

/-- Closed form of `np.polyfit(xs, ys, 1)`: the least-squares degree-1 fit
`(slope, intercept)` regressing `ys` against `xs`.  Singular sweep data
(denominator zero), which NumPy would reject, is not exercised by the
claims. -/
def polyfit1 (xs ys : List ℚ) : ℚ × ℚ :=
  let n : ℚ := (xs.length : ℚ)
  let sx := xs.sum
  let sy := ys.sum
  let sxx := (xs.map fun x => x * x).sum
  let sxy := (List.zipWith (· * ·) xs ys).sum
  let d := n * sxx - sx * sx
  ((n * sxy - sx * sy) / d, (sy * sxx - sx * sxy) / d)

/-- The calibration-relevant state of a session: the two in-memory correction
tables, whether a `calibration_location` was configured, and the contents of
the calibration file (`none` when the file does not exist). -/
structure CalState where
  adc_correct : List (Option (ℚ × ℚ))
  dac_correct : List (Option (ℚ × ℚ))
  hasLocation : Bool
  file : Option (List (Option (ℚ × ℚ)) × List (Option (ℚ × ℚ)))

/-- Embedding of the fit-and-persist tail of `AnalogShield.adc_calibrate`
(lines 133-150), with the sweep measurements passed in as the collected
`actual_readings` (reference meter) and `adc_readings` (uncorrected ADC
means).  The method first stores the fitted polynomial in
`self.adc_correct[channel]`; then, if a calibration location is configured:
if the file exists its unpickled table is an independent copy, whose ADC entry
for the channel is overwritten with `self.dac_correct[channel]` and written
back; if the file does not exist, the dict built from
`{"adc": self.adc_correct, "dac": self.dac_correct}` aliases the live
in-memory lists, so the same overwrite also clobbers the in-memory
`adc_correct[channel]`, and the aliased lists are what gets pickled. -/
def adc_calibrate (s : CalState) (channel : Fin 4)
    (actual_readings adc_readings : List ℚ) : CalState :=
  let fit := polyfit1 adc_readings actual_readings
  let adc1 := s.adc_correct.set channel.val (some fit)
  if s.hasLocation then
    match s.file with
    | some tbl =>
      { adc_correct := adc1
        dac_correct := s.dac_correct
        hasLocation := s.hasLocation
        file := some (tbl.1.set channel.val (s.dac_correct.getD channel.val none),
          tbl.2) }
    | none =>
      let adc2 := adc1.set channel.val (s.dac_correct.getD channel.val none)
      { adc_correct := adc2
        dac_correct := s.dac_correct
        hasLocation := s.hasLocation
        file := some (adc2, s.dac_correct) }
  else
    { adc_correct := adc1
      dac_correct := s.dac_correct
      hasLocation := s.hasLocation
      file := s.file }

/-- An uncalibrated table, `[None] * 4`. -/
def table0 : List (Option (ℚ × ℚ)) := [none, none, none, none]

/-- A session with a calibration location configured and an existing (all
uncalibrated) calibration file. -/
def calState0 : CalState :=
  { adc_correct := table0
    dac_correct := table0
    hasLocation := true
    file := some (table0, table0) }

/-- A session with a calibration location configured whose calibration file
does not exist yet. -/
def calState1 : CalState :=
  { adc_correct := table0
    dac_correct := table0
    hasLocation := true
    file := none }

/-- The eleven integer-volt sweep points `-5 .. 5`; used as synthetic sweep
data for an ideal device where the ADC reads back exactly the commanded
voltage. -/
def sweep11 : List ℚ := [-5, -4, -3, -2, -1, 0, 1, 2, 3, 4, 5]

/-- Setting index `i` and then reading it back with a default yields the
written value, provided `i` is in bounds. -/
theorem getD_set_self {α : Type} :
    ∀ (l : List α) (i : ℕ), i < l.length → ∀ (v d : α), (l.set i v).getD i d = v := by
  intro l
  induction l with
  | nil =>
    intro i h
    exact absurd h (Nat.not_lt_zero i)
  | cons a t ih =>
    intro i h v d
    cases i with
    | zero => rfl
    | succ j => exact ih j (Nat.lt_of_succ_lt_succ h) v d

/-- The synthetic identity sweep fits the identity polynomial. -/
theorem polyfit1_sweep11 : polyfit1 sweep11 sweep11 = (1, 0) := by
  simp only [polyfit1, sweep11, List.length_cons, List.length_nil, List.map_cons,
    List.map_nil, List.zipWith_cons_cons, List.zipWith_nil_right, List.sum_cons,
    List.sum_nil]
  norm_num

/-- C1 evaluated at its failing input (code bug): calibrating ADC channel 0
with a configured calibration location and an existing file, on ideal sweep
data whose fit is the identity `(1, 0)`, leaves the in-memory
`adc_correct[0]` holding the fit, but the table written to disk carries
`dac_correct[0]` (here `None`) in its ADC slot instead of the fitted
polynomial: `calibration["adc"][channel] = self.dac_correct[channel]`. -/
theorem adc_calibrate_persists_dac_entry :
    polyfit1 sweep11 sweep11 = (1, 0) ∧
    (adc_calibrate calState0 0 sweep11 sweep11).adc_correct.getD 0 none
      = some (1, 0) ∧
    (adc_calibrate calState0 0 sweep11 sweep11).file = some (table0, table0) := by
  refine ⟨polyfit1_sweep11, ?_, rfl⟩
  have hchar : (adc_calibrate calState0 0 sweep11 sweep11).adc_correct
      = table0.set 0 (some (polyfit1 sweep11 sweep11)) := rfl
  rw [hchar, polyfit1_sweep11]
  rfl

/-- C10: when a calibration location is configured but the file does not yet
exist, the dict pickled by `adc_calibrate` aliases the live lists: the
persisted table is exactly the pair of in-memory tables after the call, and
the in-memory ADC entry for the calibrated channel has been overwritten with
the DAC entry — so it no longer holds the polynomial just fitted whenever the
DAC entry differs from that fit. -/
theorem adc_calibrate_missing_file_aliasing
    (s : CalState) (c : Fin 4) (actual_readings adc_readings : List ℚ)
    (hlen : s.adc_correct.length = 4)
    (hloc : s.hasLocation = true) (hfile : s.file = none) :
    (adc_calibrate s c actual_readings adc_readings).file
      = some ((adc_calibrate s c actual_readings adc_readings).adc_correct,
          (adc_calibrate s c actual_readings adc_readings).dac_correct) ∧
    (adc_calibrate s c actual_readings adc_readings).adc_correct.getD c.val none
      = s.dac_correct.getD c.val none ∧
    (s.dac_correct.getD c.val none ≠ some (polyfit1 adc_readings actual_readings) →
      (adc_calibrate s c actual_readings adc_readings).adc_correct.getD c.val none
        ≠ some (polyfit1 adc_readings actual_readings)) := by
  have hchar : adc_calibrate s c actual_readings adc_readings
      = { adc_correct := (s.adc_correct.set c.val
            (some (polyfit1 adc_readings actual_readings))).set c.val
            (s.dac_correct.getD c.val none)
          dac_correct := s.dac_correct
          hasLocation := s.hasLocation
          file := some ((s.adc_correct.set c.val
            (some (polyfit1 adc_readings actual_readings))).set c.val
            (s.dac_correct.getD c.val none), s.dac_correct) } := by
    unfold adc_calibrate
    rw [hloc, hfile]
    rfl
  have hget : ((s.adc_correct.set c.val
      (some (polyfit1 adc_readings actual_readings))).set c.val
      (s.dac_correct.getD c.val none)).getD c.val none
      = s.dac_correct.getD c.val none := by
    apply getD_set_self
    rw [List.length_set, hlen]
    exact c.isLt
  have h2 : (adc_calibrate s c actual_readings adc_readings).adc_correct.getD c.val none
      = s.dac_correct.getD c.val none := by
    rw [hchar]
    exact hget
  refine ⟨?_, h2, ?_⟩
  · rw [hchar]
  · intro hne
    rw [h2]
    exact hne

/-- Witness for `adc_calibrate_missing_file_aliasing` on a fresh session with
a configured location, no file, and the ideal identity sweep. -/
theorem adc_calibrate_missing_file_aliasing_witness :
    (adc_calibrate calState1 0 sweep11 sweep11).file
      = some ((adc_calibrate calState1 0 sweep11 sweep11).adc_correct,
          (adc_calibrate calState1 0 sweep11 sweep11).dac_correct) ∧
    (adc_calibrate calState1 0 sweep11 sweep11).adc_correct.getD (0 : Fin 4).val none
      = calState1.dac_correct.getD (0 : Fin 4).val none ∧
    (calState1.dac_correct.getD (0 : Fin 4).val none
        ≠ some (polyfit1 sweep11 sweep11) →
      (adc_calibrate calState1 0 sweep11 sweep11).adc_correct.getD (0 : Fin 4).val none
        ≠ some (polyfit1 sweep11 sweep11)) :=
  adc_calibrate_missing_file_aliasing calState1 0 sweep11 sweep11 rfl rfl rfl

/-- C5 counterexample: the claim says `volts_to_bits v = round((13107*v+65535)/2)`
for every `v` in `[-5, 5]`, but the code truncates with `int(...)`.  At
`v = 12/65535` the affine image is `32768.7`: truncation gives `32768` while
rounding gives `32769`. -/
theorem volts_to_bits_not_round :
    volts_to_bits (12 / 65535) ≠ round ((13107 * (12 / 65535 : ℚ) + 65535) / 2) := by
  have harg : (13107 * (12 / 65535 : ℚ) + 65535) / 2 = 327687 / 10 := by norm_num
  have h1 : volts_to_bits (12 / 65535) = 32768 := by
    unfold volts_to_bits pyInt
    rw [if_pos (by norm_num), harg]
    norm_num
  have h2 : round ((13107 * (12 / 65535 : ℚ) + 65535) / 2) = 32769 := by
    rw [harg, round_eq]
    norm_num
  rw [h1, h2]
  decide

/-- C5 (amended): for every `v` in `[-5, 5]`, `volts_to_bits v` is the affine
map `(13107*v + 65535)/2` truncated toward zero, which on this range (where the
argument is nonnegative) equals its floor — not its rounding. -/
theorem volts_to_bits_eq_floor (v : ℚ) (h1 : -5 ≤ v) (h2 : v ≤ 5) :
    volts_to_bits v = ⌊(13107 * v + 65535) / 2⌋ := by
  unfold volts_to_bits pyInt
  rw [if_pos (by linarith)]

/-- Witness for `volts_to_bits_eq_floor` at `v = 0`. -/
theorem volts_to_bits_eq_floor_witness :
    (-5 : ℚ) ≤ 0 ∧ (0 : ℚ) ≤ 5 ∧ volts_to_bits 0 = ⌊(13107 * (0 : ℚ) + 65535) / 2⌋ :=
  ⟨by norm_num, by norm_num, volts_to_bits_eq_floor 0 (by norm_num) (by norm_num)⟩

/-- C6: for every `v` in `[-5, 5]`, the round trip
`bits_to_volts (volts_to_bits v)` differs from `v` by at most one quantization
step `2/13107`. -/
theorem round_trip_within_step (v : ℚ) (h1 : -5 ≤ v) (h2 : v ≤ 5) :
    |bits_to_volts (volts_to_bits v) - v| ≤ 2 / 13107 := by
  have hvb : volts_to_bits v = ⌊(13107 * v + 65535) / 2⌋ := by
    unfold volts_to_bits pyInt
    rw [if_pos (by linarith)]
  have hkey : bits_to_volts ⌊(13107 * v + 65535) / 2⌋ - v
      = (2 * ((⌊(13107 * v + 65535) / 2⌋ : ℤ) : ℚ) - (13107 * v + 65535)) / 13107 := by
    unfold bits_to_volts
    ring
  rw [hvb, hkey, abs_le]
  have hfl : ((⌊(13107 * v + 65535) / 2⌋ : ℤ) : ℚ) ≤ (13107 * v + 65535) / 2 :=
    Int.floor_le _
  have hfg : (13107 * v + 65535) / 2 - 1 < ((⌊(13107 * v + 65535) / 2⌋ : ℤ) : ℚ) :=
    Int.sub_one_lt_floor _
  constructor <;> linarith

/-- Witness for `round_trip_within_step` at `v = 1`. -/
theorem round_trip_within_step_witness :
    (-5 : ℚ) ≤ 1 ∧ (1 : ℚ) ≤ 5 ∧ |bits_to_volts (volts_to_bits 1) - 1| ≤ 2 / 13107 :=
  ⟨by norm_num, by norm_num, round_trip_within_step 1 (by norm_num) (by norm_num)⟩

/-- C7: a command frame is the two ASCII identifier bytes followed by the
argument in big-endian order: `arg >> 8` is the high byte `arg / 256` and
`arg & 0xFF` is the low byte `arg % 256`; in particular the frame for
identifier "v0" with argument 0x1234 is `['v', '0', 0x12, 0x34]`. -/
theorem command_frame_big_endian :
    (∀ (identifier : String) (arg : ℕ) (chunks : List (List ℕ)),
        (write identifier arg chunks).1
          = identifier.toList.map Char.toNat ++ [arg >>> 8, arg &&& 0xff]) ∧
    (∀ arg : ℕ, encode_num arg = [arg / 256, arg % 256]) ∧
    commandBytes "v0" 0x1234 = [118, 48, 0x12, 0x34] := by
  refine ⟨fun identifier arg chunks => rfl, fun arg => ?_, by decide⟩
  unfold encode_num
  rw [Nat.shiftRight_eq_div_pow,
    show (0xff : ℕ) = 2 ^ 8 - 1 from rfl,
    Nat.and_pow_two_sub_one_eq_mod]

end AnalogShield
